import Mathlib

/-!
Verification of the protolog log-collector core against its specification.

This file gives a shallow embedding, in Lean, of the Go modules
`internal/memory/ringbuffer.go`, `internal/storage/sqlite.go`,
`internal/storage/writer.go`, `internal/registry/registry.go` and
`cmd/log-collector/main.go`, and proves (or refutes) the specified
properties of those modules.

Conventions of the embedding:
* Go machine integers (`int`, `int64`) are modelled as `Int`; byte slices as
  `List Nat`.
* The SQLite engine is modelled denotationally: a table is a `List LogRow`;
  a `SELECT ... WHERE ... ORDER BY event_ts_ms ASC, id ASC LIMIT ?` is
  `filter`, then `mergeSort` by the `(event_ts_ms, id)` key, then `take`.
  An SQL `NULL` column is an `Option` that never satisfies an `IN (...)`
  membership test, and a negative `LIMIT` argument means "no limit"
  (SQLite semantics).
* External protobuf library calls (`proto.Marshal`, `proto.Unmarshal` of an
  envelope, timestamp formatting, enum naming) are threaded through an
  explicit record `ExternCodecs` of pure functions; the `protojson`
  serializer is modelled from its documented behaviour with the options the
  source sets (`UseProtoNames: true`, `EmitUnpopulated: false`).
* Go channels appear as explicit queues (`List`), and a non-blocking
  channel send (`select`/`default`) is a conditional append that leaves the
  queue unchanged when it is at capacity.
-/

namespace Protolog

/-! ## Data model: the log envelope (`pkg/logproto/logging`) -/

/-- A protobuf well-known `Timestamp`: seconds and nanoseconds. -/
structure Timestamp where
  seconds : Int
  nanos : Int
deriving DecidableEq

/-- One structured log record, as carried on the wire
(`logging.LogEnvelope`). `none` timestamp models a nil pointer; `payload`
is the opaque payload byte string. -/
structure LogEnvelope where
  topic : String
  timestamp : Option Timestamp
  level : Int
  host : String
  service : String
  pid : Int
  type_ : String
  summary : String
  sessionId : String
  correlationId : String
  payload : List Nat
deriving DecidableEq

/-! ## internal/memory/ringbuffer.go -/

/-- RingBuffer holds the last N log envelopes for a single topic.
The backing slice of envelope pointers is a fixed-length list of
`Option LogEnvelope` (`none` models a nil slot never yet written). -/
structure RingBuffer where
  buf : List (Option LogEnvelope)
  size : Nat
  start : Nat
  count : Nat
deriving DecidableEq

/-- Mirrors `NewRingBuffer`: a non-positive requested size is clamped
to 1 and the backing slice is allocated with that many nil slots. -/
def NewRingBuffer (size : Int) : RingBuffer :=
  let s : Nat := if size ≤ 0 then 1 else size.toNat
  { buf := List.replicate s none, size := s, start := 0, count := 0 }

/-- Mirrors `RingBuffer.Add`: append an envelope, overwriting the oldest
if full. -/
def RingBuffer.Add (r : RingBuffer) (env : LogEnvelope) : RingBuffer :=
  if r.count < r.size then
    { r with buf := r.buf.set ((r.start + r.count) % r.size) (some env),
             count := r.count + 1 }
  else
    { r with buf := r.buf.set r.start (some env),
             start := (r.start + 1) % r.size }

/-- Mirrors `RingBuffer.Recent`: up to `max` most recent envelopes,
newest-first. `max` is a Go `int`, clamped to the occupancy when
non-positive or too large. -/
def RingBuffer.Recent (r : RingBuffer) (max : Int) : List (Option LogEnvelope) :=
  if r.count = 0 then []
  else
    let m : Nat := if max ≤ 0 ∨ (r.count : Int) < max then r.count else max.toNat
    (List.range m).map fun i =>
      r.buf.getD ((r.start + r.count - 1 - i + r.size) % r.size) none

/-- TopicBuffers manages ring buffers per topic; the Go map is modelled
as an association list keyed by topic. -/
structure TopicBuffers where
  size : Int
  topics : List (String × RingBuffer)
deriving DecidableEq

/-- Mirrors `NewTopicBuffers` (non-positive size clamped to 1). -/
def NewTopicBuffers (size : Int) : TopicBuffers :=
  { size := if size ≤ 0 then 1 else size, topics := [] }

/-- The key normalization performed inside `getOrCreate`: an empty topic
is stored under the sentinel name "untitled". -/
def normalizeTopic (topic : String) : String :=
  if topic = "" then "untitled" else topic

/-- Replace the ring stored under key `t` (or append a fresh binding when
absent); this models Go's in-place mutation of the shared `*RingBuffer`
held in the `topics` map. -/
def updateTopic : List (String × RingBuffer) → String → RingBuffer →
    List (String × RingBuffer)
  | [], t, rb => [(t, rb)]
  | (k, v) :: rest, t, rb =>
      if k = t then (t, rb) :: rest else (k, v) :: updateTopic rest t rb

/-- Mirrors `TopicBuffers.Add`: `getOrCreate(env.GetTopic())` (which
normalizes the empty topic) followed by `rb.Add(env)` on the shared ring. -/
def TopicBuffers.Add (tb : TopicBuffers) (env : LogEnvelope) : TopicBuffers :=
  let key := normalizeTopic env.topic
  let rb := match tb.topics.lookup key with
    | some rb => rb
    | none => NewRingBuffer tb.size
  { tb with topics := updateTopic tb.topics key (rb.Add env) }

/-- Mirrors `TopicBuffers.Recent`: a direct (non-normalized) map lookup;
an unknown topic yields the empty sequence. -/
def TopicBuffers.Recent (tb : TopicBuffers) (topic : String) (max : Int) :
    List (Option LogEnvelope) :=
  match tb.topics.lookup topic with
  | none => []
  | some rb => rb.Recent max

/-- Mirrors `TopicBuffers.Topics`: the map keys, sorted ascending. -/
def TopicBuffers.Topics (tb : TopicBuffers) : List String :=
  (tb.topics.map Prod.fst).mergeSort fun a b => decide (a ≤ b)

/-! ## internal/storage/sqlite.go -/

/-- Mirrors `tsToMillis`: a nil timestamp maps to 0; otherwise
seconds·1000 plus nanoseconds divided by 10⁶ with Go's
truncation-toward-zero integer division. -/
def tsToMillis (ts : Option Timestamp) : Int :=
  match ts with
  | none => 0
  | some t => t.seconds * 1000 + t.nanos.tdiv 1000000

/-- Mirrors `nullString`: an empty string is stored as SQL NULL. -/
def nullString (s : String) : Option String :=
  if s = "" then none else some s

/-- Mirrors `nullBlob`: an empty payload is stored as SQL NULL. -/
def nullBlob (b : List Nat) : Option (List Nat) :=
  if b.length = 0 then none else some b

/-- One row of the `logs` table. Nullable columns are `Option`s; `id` is
the store-assigned integer primary key. -/
structure LogRow where
  id : Int
  eventTsMs : Int
  ingestTsMs : Int
  topic : String
  level : Int
  host : Option String
  service : Option String
  pid : Int
  type_ : Option String
  summary : Option String
  sessionId : Option String
  correlationId : Option String
  payload : Option (List Nat)
deriving DecidableEq

/-- Mirrors `InsertLog`: the row appended for an envelope, given the
store-assigned id and the wall-clock receipt time. -/
def InsertLog (env : LogEnvelope) (newId ingestNow : Int) : LogRow :=
  { id := newId
    eventTsMs := tsToMillis env.timestamp
    ingestTsMs := ingestNow
    topic := env.topic
    level := env.level
    host := nullString env.host
    service := nullString env.service
    pid := env.pid
    type_ := nullString env.type_
    summary := nullString env.summary
    sessionId := nullString env.sessionId
    correlationId := nullString env.correlationId
    payload := nullBlob env.payload }

/-- The `ORDER BY event_ts_ms ASC, id ASC` comparison, as a boolean
total preorder on rows. -/
def keyLE (a b : LogRow) : Bool :=
  decide (a.eventTsMs < b.eventTsMs) ||
    (decide (a.eventTsMs = b.eventTsMs) && decide (a.id ≤ b.id))

/-- The strict `(event_ts_ms, id)` order on rows; it is the total order
the spec's keyset pagination is defined over. -/
def keyLT (a b : LogRow) : Prop :=
  a.eventTsMs < b.eventTsMs ∨ (a.eventTsMs = b.eventTsMs ∧ a.id < b.id)

/-- The SQL condition `event_ts_ms >= ? AND event_ts_ms < ?` (the
half-open query time window). -/
def windowB (startMs endMs : Int) (r : LogRow) : Bool :=
  decide (startMs ≤ r.eventTsMs) && decide (r.eventTsMs < endMs)

/-- The keyset-cursor condition of `QueryLogsMulti`: when `cursorTS` is 0
the condition is not added to the WHERE clause at all, otherwise it is
`event_ts_ms > ? OR (event_ts_ms = ? AND id > ?)`. -/
def cursorGate (cursorTS cursorID : Int) (r : LogRow) : Bool :=
  cursorTS == 0 ||
    (decide (cursorTS < r.eventTsMs) ||
      (decide (r.eventTsMs = cursorTS) && decide (cursorID < r.id)))

/-- An SQL `col IN (v₁,...,vₙ)` membership test against a nullable
column: a NULL value never compares equal to any list element. -/
def inStrings (vals : List String) (x : Option String) : Bool :=
  match x with
  | none => false
  | some s => vals.contains s

/-- The full WHERE predicate built by `QueryLogsMulti`, in the order the
source appends the conditions: window, then `IN` filters for topic,
service, host, type and level (each omitted when its value list is
empty), then the cursor gate. -/
def matchesMulti (startMs endMs : Int) (topics services hosts : List String)
    (levels : List Int) (types : List String) (cursorTS cursorID : Int)
    (r : LogRow) : Bool :=
  windowB startMs endMs r
  && (topics.isEmpty || topics.contains r.topic)
  && (services.isEmpty || inStrings services r.service)
  && (hosts.isEmpty || inStrings hosts r.host)
  && (types.isEmpty || inStrings types r.type_)
  && (levels.isEmpty || levels.contains r.level)
  && cursorGate cursorTS cursorID r

/-- An SQL `LIMIT ?`: a negative bound means no limit (SQLite semantics);
otherwise at most that many rows are returned. -/
def sqlLimit (limit : Int) (rows : List LogRow) : List LogRow :=
  if limit < 0 then rows else rows.take limit.toNat

/-- Mirrors `QueryLogsMulti`: time range plus optional multi-value
filters, `(event_ts_ms, id)` cursor paging, ascending key order, LIMIT. -/
def QueryLogsMulti (rows : List LogRow) (startMs endMs : Int)
    (topics services hosts : List String) (levels : List Int)
    (types : List String) (cursorTS cursorID : Int) (limit : Int) :
    List LogRow :=
  sqlLimit limit
    ((rows.filter
        (matchesMulti startMs endMs topics services hosts levels types
          cursorTS cursorID)).mergeSort keyLE)

/-- The WHERE predicate of the older single-value `QueryLogs`: window,
`(? = '' OR topic = ?)`, `(? = '' OR service = ?)` (NULL service never
matches), and `(? = 0 OR event_ts_ms > ? OR (event_ts_ms = ? AND id > ?))`. -/
def matchesSingle (startMs endMs : Int) (topic service : String)
    (cursorTS cursorID : Int) (r : LogRow) : Bool :=
  windowB startMs endMs r
  && (topic == "" || r.topic == topic)
  && (service == "" ||
        (match r.service with | none => false | some s => s == service))
  && cursorGate cursorTS cursorID r

/-- Mirrors `QueryLogs`. -/
def QueryLogs (rows : List LogRow) (startMs endMs : Int)
    (topic service : String) (cursorTS cursorID : Int) (limit : Int) :
    List LogRow :=
  sqlLimit limit
    ((rows.filter (matchesSingle startMs endMs topic service cursorTS
        cursorID)).mergeSort keyLE)

/-- The keyset-pagination protocol of §4.3 as driven by the HTTP layer
(`/api/logs`): the first request carries cursor `(0,0)`; while a page
comes back exactly `limit` long, the next request carries the
`(event_ts_ms, id)` of the page's last row (`nextCursor`). `fuel` bounds
the number of requests. -/
def collectPages (rows : List LogRow) (startMs endMs : Int) (limit : Int) :
    Int → Int → Nat → List LogRow
  | _, _, 0 => []
  | cursorTS, cursorID, fuel + 1 =>
    let page := QueryLogsMulti rows startMs endMs [] [] [] [] []
      cursorTS cursorID limit
    match page.getLast? with
    | none => []
    | some last =>
      if (page.length : Int) = limit then
        page ++ collectPages rows startMs endMs limit
          last.eventTsMs last.id fuel
      else page

/-! ## External protobuf library functions

The collector calls into `google.golang.org/protobuf` for envelope
(un)marshalling, timestamp formatting and level naming. These are opaque
to the repository; they are threaded through as a record of pure
functions so every theorem holds for an arbitrary implementation. -/

/-- Pure models of the external protobuf/time library calls used by the
collector: `proto.Marshal` of an envelope, `proto.Unmarshal` into an
envelope (`none` = error), RFC3339-with-nanoseconds time formatting, and
protobuf enum level naming. -/
structure ExternCodecs where
  marshalEnv : LogEnvelope → List Nat
  unmarshalEnv : List Nat → Option LogEnvelope
  fmtTime : Timestamp → String
  levelName : Int → String

/-! ## internal/storage/writer.go -/

/-- Big-endian 4-byte length prefix of a frame (`binary.BigEndian.PutUint32`
applied to `uint32(len(data))`). -/
def u32be (n : Nat) : List Nat :=
  let v := n % 2 ^ 32
  [v / 2 ^ 24 % 256, v / 2 ^ 16 % 256, v / 2 ^ 8 % 256, v % 256]

/-- The append-only per-topic file writer; `files` maps a topic to the
byte contents of its (lazily created) log file. -/
structure Writer where
  baseDir : String
  files : List (String × List Nat)

/-- Mirrors `NewWriter`. -/
def NewWriter (baseDir : String) : Writer :=
  { baseDir := baseDir, files := [] }

/-- The on-disk name `getFile` opens for a topic:
`filepath.Join(baseDir, topic + ".log")`. -/
def Writer.logFileName (w : Writer) (topic : String) : String :=
  w.baseDir ++ "/" ++ topic ++ ".log"

/-- Update the contents recorded for a topic's file (append-mode open
plus the two writes), creating the binding on first use like `getFile`. -/
def updateFile : List (String × List Nat) → String → List Nat →
    List (String × List Nat)
  | [], t, frame => [(t, frame)]
  | (k, v) :: rest, t, frame =>
      if k = t then (t, v ++ frame) :: rest
      else (k, v) :: updateFile rest t frame

/-- Mirrors `Writer.WriteEnvelope`: marshal the envelope, route the empty
topic to the sentinel "untitled", and append
`[4-byte big-endian length][protobuf bytes]` to that topic's file. -/
def Writer.WriteEnvelope (codecs : ExternCodecs) (w : Writer)
    (env : LogEnvelope) : Writer :=
  let data := codecs.marshalEnv env
  let topic := if env.topic = "" then "untitled" else env.topic
  { w with files := updateFile w.files topic (u32be data.length ++ data) }

/-! ## internal/registry/registry.go

The descriptor registry resolves a fully-qualified type name and decodes
a payload through `dynamicpb` + `protojson`. The reflective machinery is
external, so a resolved descriptor is modelled by whether it is a message
descriptor and by its wire decoder, and the `protojson` serializer is
modelled from its documented behaviour under the exact options the source
sets (`Multiline: false`, `EmitUnpopulated: false`, `UseProtoNames: true`):
the populated fields, each rendered under its declared proto field name,
emitted in ascending field-number order. -/

/-- One populated field of a decoded dynamic message: its field number,
its declared wire (proto) name, and its rendered JSON value. -/
structure ProtoField where
  number : Nat
  name : String
  value : String
deriving DecidableEq

/-- A named descriptor in the registry namespace: either a message
descriptor together with its wire-format decoder (`none` = the payload
bytes are malformed for the type), or a non-message descriptor (enum,
field, service, ...). -/
structure Descriptor where
  isMessage : Bool
  unmarshal : List Nat → Option (List ProtoField)

/-- The loaded registry: `FindDescriptorByName` over the merged
namespace (`none` = not found). -/
structure Registry where
  find : String → Option Descriptor

/-- Field-number comparison used to order the emitted JSON fields. -/
def fieldNumLE (a b : ProtoField) : Bool := decide (a.number ≤ b.number)

/-- The populated fields in the canonical emission order. -/
def sortedFields (fields : List ProtoField) : List ProtoField :=
  fields.mergeSort fieldNumLE

/-- Modelled from the documented `protojson.MarshalOptions{UseProtoNames:
true, EmitUnpopulated: false}.Marshal` on a dynamic message: a JSON
object whose members are exactly the populated fields, keyed by declared
proto names, in canonical (field-number) order. -/
def marshalJSONFields (fields : List ProtoField) : String :=
  "\x7b" ++
    String.intercalate ","
      ((sortedFields fields).map fun f => "\"" ++ f.name ++ "\":" ++ f.value)
  ++ "\x7d"

/-- Mirrors `Registry.FormatJSON`, including the nil-receiver guard: the
five error exits (nil registry, empty type name, unresolved name,
non-message descriptor, malformed payload) and the success path. -/
def FormatJSON (r : Option Registry) (typeName : String)
    (payload : List Nat) : Except String String :=
  match r with
  | none => .error "registry is nil"
  | some reg =>
    if typeName = "" then .error "empty type name"
    else
      match reg.find typeName with
      | none => .error ("find descriptor " ++ typeName)
      | some desc =>
        if desc.isMessage = false then
          .error ("descriptor " ++ typeName ++ " is not a message")
        else
          match desc.unmarshal payload with
          | none => .error ("unmarshal payload as " ++ typeName)
          | some msg => .ok (marshalJSONFields msg)

/-! ## cmd/log-collector/main.go : hub, DTOs and the ingestion loop -/

/-- The outbound REST/WS DTO (`logDTO`). -/
structure LogDTO where
  topic : String
  timestamp : String
  level : String
  host : String
  service : String
  summary : String
  type_ : String
deriving DecidableEq

/-- The outbound websocket message (`wsLogMessage`): the DTO plus an
optional decoded payload (`omitempty` — absent when `none`). -/
structure WsLogMessage where
  dto : LogDTO
  payloadJSON : Option String
deriving DecidableEq

/-- Mirrors `envToDTO`: empty timestamp string for a nil timestamp,
otherwise RFC3339Nano formatting. -/
def envToDTO (codecs : ExternCodecs) (e : LogEnvelope) : LogDTO :=
  { topic := e.topic
    timestamp := match e.timestamp with
      | none => ""
      | some t => codecs.fmtTime t
    level := codecs.levelName e.level
    host := e.host
    service := e.service
    summary := e.summary
    type_ := e.type_ }

/-- Mirrors `hub.toWSLog`: the DTO is always produced; the decoded
payload is attached only when the registry is present, the payload is
non-empty, the type name is non-empty and `FormatJSON` succeeds — a
decode error is logged and degrades to an absent payload. -/
def toWSLog (codecs : ExternCodecs) (reg : Option Registry)
    (e : LogEnvelope) : WsLogMessage :=
  let dto := envToDTO codecs e
  let payload : Option String :=
    if reg.isSome ∧ 0 < e.payload.length ∧ e.type_ ≠ "" then
      match FormatJSON reg e.type_ e.payload with
      | .ok b => some b
      | .error _ => none
    else none
  { dto := dto, payloadJSON := payload }

/-- A registered viewer (`client`): its topic filter (empty = all
topics), its bounded outbound mailbox (`send`, a buffered channel of
capacity `cap`), with the queued messages listed oldest-first. -/
structure WsClient where
  topic : String
  send : List WsLogMessage
  cap : Nat
deriving DecidableEq

/-- One iteration of the `deliver` fan-out loop body for a single
registered viewer: skip a non-matching topic filter; otherwise attempt
the non-blocking `select { case c.send <- msg: default: }` — enqueue when
the mailbox has room, silently drop when it is full. The function is
total: the pass never waits on the viewer. -/
def deliverOne (codecs : ExternCodecs) (reg : Option Registry)
    (env : LogEnvelope) (c : WsClient) : WsClient :=
  if c.topic ≠ "" ∧ c.topic ≠ env.topic then c
  else
    let msg := toWSLog codecs reg env
    if c.send.length < c.cap then { c with send := c.send ++ [msg] }
    else c

/-- The hub state owned by the single `hub.run` goroutine. -/
structure Hub where
  registry : Option Registry
  clients : List WsClient

/-- The `case env := <-h.broadcast` arm of `hub.run`: fan the envelope
out over every currently registered viewer. -/
def Hub.deliver (codecs : ExternCodecs) (h : Hub) (env : LogEnvelope) :
    Hub :=
  { h with clients := h.clients.map (deliverOne codecs h.registry env) }

/-- The collector state touched by one ingestion-loop iteration: the
rows successfully inserted into storage, the in-memory topic cache, and
the hub's inbound `broadcast` mailbox (oldest-first). -/
structure CollectorState where
  inserted : List LogEnvelope
  buffers : TopicBuffers
  broadcast : List LogEnvelope

/-- Mirrors the body of the receive loop in `main`: unmarshal the frame
(on failure log and continue); `InsertLog` (on failure — `insertErr`
reports the store's outcome — log and continue); always `topicBuffers.Add`;
always submit to `h.broadcast`. The function is total: no branch is fatal
to the process. -/
def processFrame (codecs : ExternCodecs) (st : CollectorState)
    (data : List Nat) (insertErr : Option String) : CollectorState :=
  match codecs.unmarshalEnv data with
  | none => st
  | some env =>
    let st1 := match insertErr with
      | none => { st with inserted := st.inserted ++ [env] }
      | some _ => st
    { st1 with buffers := st1.buffers.Add env
               broadcast := st1.broadcast ++ [env] }

/-! ## Abstraction definitions used by the statements -/

/-- Distinctness of the store-assigned row ids (the `PRIMARY KEY`
uniqueness the table guarantees). -/
def idsNodup (l : List LogRow) : Prop :=
  l.Pairwise fun a b => a.id ≠ b.id

/-- Structural well-formedness of a ring buffer; it holds for
`NewRingBuffer` and is preserved by `Add`. -/
def RingBuffer.inv (r : RingBuffer) : Prop :=
  r.buf.length = r.size ∧ 0 < r.size ∧ r.count ≤ r.size ∧ r.start < r.size

/-- Abstraction: the live contents of the ring, newest-first. -/
def RingBuffer.toList (r : RingBuffer) : List (Option LogEnvelope) :=
  (List.range r.count).map fun i =>
    r.buf.getD ((r.start + r.count - 1 - i + r.size) % r.size) none

/-- Mirrors the ingestion loop's repeated additions. -/
def addAll (r : RingBuffer) (es : List LogEnvelope) : RingBuffer :=
  es.foldl RingBuffer.Add r

/-- Well-formedness of a topic cache: every ring reachable by lookup is
structurally well formed (true of every cache built by the API). -/
def TopicBuffers.wf (tb : TopicBuffers) : Prop :=
  ∀ t rb, tb.topics.lookup t = some rb → rb.inv

/-! ## Concrete fixtures used by witnesses and counterexamples -/

/-- A minimal envelope fixture. -/
def sampleEnv (topic summary : String) : LogEnvelope :=
  { topic := topic, timestamp := none, level := 0, host := "", service := "",
    pid := 0, type_ := "", summary := summary, sessionId := "",
    correlationId := "", payload := [] }

/-- A trivial instantiation of the external codec record. -/
def codecs0 : ExternCodecs :=
  { marshalEnv := fun _ => [7], unmarshalEnv := fun _ => none,
    fmtTime := fun _ => "", levelName := fun _ => "" }

/-- Codecs whose frame decoder always succeeds (for ingestion fixtures). -/
def codecs1 : ExternCodecs :=
  { codecs0 with unmarshalEnv := fun _ => some (sampleEnv "demo" "w") }

/-- A minimal row fixture. -/
def sampleRow (id ts : Int) (service : Option String) : LogRow :=
  { id := id, eventTsMs := ts, ingestTsMs := 0, topic := "t", level := 0,
    host := none, service := service, pid := 0, type_ := none,
    summary := none, sessionId := none, correlationId := none,
    payload := none }

/-- Counterexample store: two rows with `event_ts_ms = 0` (envelopes with
no timestamp) and distinct ids. -/
def cexRow1 : LogRow := sampleRow 1 0 none

/-- Second row of the counterexample store. -/
def cexRow2 : LogRow := sampleRow 2 0 none

/-- Rows with services A, B, C for the multi-value filter fixture. -/
def crowA : LogRow := sampleRow 1 1 (some "A")

/-- Service-B row of the filter fixture. -/
def crowB : LogRow := sampleRow 2 2 (some "B")

/-- Service-C row of the filter fixture. -/
def crowC : LogRow := sampleRow 3 3 (some "C")

/-- A viewer with room in its mailbox. -/
def clOpen : WsClient := { topic := "", send := [], cap := 4 }

/-- A viewer whose mailbox is already at capacity. -/
def clFull : WsClient := { topic := "", send := [], cap := 0 }

/-- A hub fixture with one open and one full viewer. -/
def hub0 : Hub := { registry := none, clients := [clOpen, clFull] }

/-- A registry that resolves no names. -/
def reg0 : Registry := { find := fun _ => none }

/-- Decoded-field fixtures for the canonical-serialization statements. -/
def pfA : ProtoField := { number := 1, name := "a", value := "1" }

/-- Second decoded-field fixture. -/
def pfB : ProtoField := { number := 2, name := "b", value := "2" }

/-- A message descriptor whose decoder always yields the two fixture
fields. -/
def desc5 : Descriptor := { isMessage := true, unmarshal := fun _ => some [pfA, pfB] }

/-- A registry resolving every name to `desc5`. -/
def reg5 : Registry := { find := fun _ => some desc5 }

/-! ## Ring buffer infrastructure lemmas -/

lemma inv_NewRingBuffer (size : Int) : (NewRingBuffer size).inv := by
  unfold NewRingBuffer RingBuffer.inv
  by_cases h : size ≤ 0
  · simp [h]
  · simp [h]
    omega

lemma toList_NewRingBuffer (size : Int) : (NewRingBuffer size).toList = [] := by
  simp [NewRingBuffer, RingBuffer.toList]

lemma size_Add (r : RingBuffer) (e : LogEnvelope) : (r.Add e).size = r.size := by
  unfold RingBuffer.Add
  split <;> rfl

lemma inv_Add {r : RingBuffer} (h : r.inv) (e : LogEnvelope) : (r.Add e).inv := by
  obtain ⟨h1, h2, h3, h4⟩ := h
  unfold RingBuffer.Add RingBuffer.inv
  split <;> simp only [List.length_set]
  · exact ⟨h1, h2, by omega, h4⟩
  · exact ⟨h1, h2, h3, Nat.mod_lt _ h2⟩

lemma toList_length (r : RingBuffer) : r.toList.length = r.count := by
  simp [RingBuffer.toList]

/-- Reduce `y % n` to explicit subtractions when `y < 3·n`. -/
lemma modReduce (y n : Nat) (h3 : y < 3 * n) :
    y % n = if y < n then y else if y < 2 * n then y - n else y - 2 * n := by
  by_cases h1 : y < n
  · simp [h1, Nat.mod_eq_of_lt h1]
  · by_cases h2 : y < 2 * n
    · rw [Nat.mod_eq_sub_mod (by omega), Nat.mod_eq_of_lt (by omega)]
      simp [h1, h2]
    · rw [Nat.mod_eq_sub_mod (by omega), Nat.mod_eq_sub_mod (by omega),
        Nat.mod_eq_of_lt (by omega)]
      simp [h1, h2]
      omega

lemma getD_set_self {α : Type} {l : List α} {i : Nat} (h : i < l.length)
    (a d : α) : (l.set i a).getD i d = a := by
  simp [List.getD_eq_getElem?_getD, List.getElem?_set, h]

lemma getD_set_ne {α : Type} {l : List α} {i j : Nat} (h : i ≠ j)
    (a d : α) : (l.set i a).getD j d = l.getD j d := by
  simp [List.getD_eq_getElem?_getD, List.getElem?_set, h]

lemma map_range_take {α : Type} (f : Nat → α) {m n : Nat} (h : m ≤ n) :
    (List.range m).map f = ((List.range n).map f).take m := by
  rw [← List.map_take, List.take_range]
  have : m ⊓ n = m := by omega
  rw [this]

/-- Effect of `Add` on the abstract contents: the new envelope becomes
the head, and at most the oldest entry is evicted. -/
lemma toList_Add {r : RingBuffer} (h : r.inv) (e : LogEnvelope) :
    (r.Add e).toList = some e :: r.toList.take (r.size - 1) := by
  obtain ⟨hlen, hpos, hcount, hstart⟩ := h
  unfold RingBuffer.Add
  by_cases hlt : r.count < r.size
  · simp only [if_pos hlt]
    have htake : r.toList.take (r.size - 1) = r.toList := by
      apply List.take_of_length_le
      rw [toList_length]; omega
    rw [htake]
    unfold RingBuffer.toList
    simp only
    rw [List.range_succ_eq_map, List.map_cons, List.map_map]
    congr 1
    · -- head slot: the freshly written index
      have hidx : r.start + (r.count + 1) - 1 - 0 + r.size
          = r.start + r.count + r.size := by omega
      rw [hidx, Nat.add_mod_right]
      exact getD_set_self (by rw [hlen]; exact Nat.mod_lt _ hpos) _ _
    · -- tail: reads miss the freshly written slot
      apply List.map_congr_left
      intro i hi
      simp only [List.mem_range] at hi
      simp only [Function.comp]
      have hidx : r.start + (r.count + 1) - 1 - (i + 1) + r.size
          = r.start + r.count - 1 - i + r.size := by omega
      rw [hidx]
      apply getD_set_ne
      -- (start+count) % size ≠ (start+count-1-i+size) % size
      rw [modReduce (r.start + r.count) r.size (by omega),
        modReduce (r.start + r.count - 1 - i + r.size) r.size (by omega)]
      split_ifs <;> omega
  · simp only [if_neg hlt]
    have hcnt : r.count = r.size := by omega
    have htake : r.toList.take (r.size - 1)
        = (List.range (r.size - 1)).map fun i =>
            r.buf.getD ((r.start + r.size - 1 - i + r.size) % r.size) none := by
      unfold RingBuffer.toList
      rw [hcnt]
      exact (map_range_take _ (by omega)).symm
    rw [htake]
    unfold RingBuffer.toList
    simp only
    rw [hcnt]
    apply List.ext_getElem
    · simp only [List.length_map, List.length_range, List.length_cons]
      omega
    · intro j h1 h2
      simp only [List.length_map, List.length_range] at h1
      simp only [List.getElem_map, List.getElem_range]
      match j, h1 with
      | 0, _ =>
        simp only [List.getElem_cons_zero]
        have hix : ((r.start + 1) % r.size + r.size - 1 - 0 + r.size)
            % r.size = r.start := by
          by_cases hs : r.start + 1 < r.size
          · rw [Nat.mod_eq_of_lt hs,
              modReduce (r.start + 1 + r.size - 1 - 0 + r.size) r.size
                (by omega)]
            split_ifs <;> omega
          · have hs' : r.start + 1 = r.size := by omega
            rw [hs', Nat.mod_self,
              modReduce (0 + r.size - 1 - 0 + r.size) r.size (by omega)]
            split_ifs <;> omega
        rw [hix]
        exact getD_set_self (by omega) _ _
      | j + 1, h1 =>
        have hj : j < r.size - 1 := by
          simp only [List.length_cons, List.length_map, List.length_range]
            at h2
          omega
        simp only [List.getElem_cons_succ, List.getElem_map,
          List.getElem_range]
        have key : ((r.start + 1) % r.size + r.size - 1 - (j + 1) + r.size)
              % r.size
            = (r.start + r.size - 1 - j + r.size) % r.size ∧
            (r.start + r.size - 1 - j + r.size) % r.size ≠ r.start := by
          by_cases hs : r.start + 1 < r.size
          · rw [Nat.mod_eq_of_lt hs,
              modReduce (r.start + 1 + r.size - 1 - (j + 1) + r.size) r.size
                (by omega),
              modReduce (r.start + r.size - 1 - j + r.size) r.size (by omega)]
            refine ⟨?_, ?_⟩ <;> split_ifs <;> omega
          · have hs' : r.start + 1 = r.size := by omega
            rw [hs', Nat.mod_self,
              modReduce (0 + r.size - 1 - (j + 1) + r.size) r.size (by omega),
              modReduce (r.start + r.size - 1 - j + r.size) r.size (by omega)]
            refine ⟨?_, ?_⟩ <;> split_ifs <;> omega
        rw [key.1]
        exact getD_set_ne (Ne.symm key.2) _ _

/-- `Recent` is a take of the abstract contents. -/
lemma Recent_eq_take (r : RingBuffer) (max : Int) :
    r.Recent max = r.toList.take
      (if max ≤ 0 ∨ (r.count : Int) < max then r.count else max.toNat) := by
  unfold RingBuffer.Recent RingBuffer.toList
  by_cases h0 : r.count = 0
  · simp [h0]
  · simp only [if_neg h0]
    split
    · exact map_range_take _ (le_refl _)
    · rename_i hc
      push_neg at hc
      exact map_range_take _ (by omega)

lemma inv_addAll {r : RingBuffer} (h : r.inv) (es : List LogEnvelope) :
    (addAll r es).inv := by
  induction es generalizing r with
  | nil => exact h
  | cons e es ih => exact ih (inv_Add h e)

lemma size_addAll (r : RingBuffer) (es : List LogEnvelope) :
    (addAll r es).size = r.size := by
  induction es generalizing r with
  | nil => rfl
  | cons e es ih => rw [addAll, List.foldl_cons, ← addAll, ih, size_Add]

lemma take_append_cons_take {α : Type} (A : List α) (a : α) (t : List α)
    {n : Nat} (hn : 0 < n) :
    (A ++ a :: t.take (n - 1)).take n = (A ++ a :: t).take n := by
  rw [List.take_append_eq_append_take, List.take_append_eq_append_take]
  congr 1
  rcases Nat.eq_zero_or_pos (n - A.length) with h | h
  · rw [h]; rfl
  · obtain ⟨m, hm⟩ : ∃ m, n - A.length = m + 1 := ⟨n - A.length - 1, by omega⟩
    rw [hm, List.take_succ_cons, List.take_succ_cons, List.take_take]
    congr 2
    omega

/-- Abstract effect of a whole sequence of additions. -/
lemma toList_addAll {r : RingBuffer} (h : r.inv) (es : List LogEnvelope) :
    (addAll r es).toList = (es.reverse.map some ++ r.toList).take r.size := by
  induction es generalizing r with
  | nil =>
    simp only [addAll, List.foldl_nil, List.reverse_nil, List.map_nil,
      List.nil_append]
    exact (List.take_of_length_le (by rw [toList_length]; exact h.2.2.1)).symm
  | cons e es ih =>
    rw [addAll, List.foldl_cons, ← addAll]
    rw [ih (inv_Add h e), size_Add, toList_Add h]
    rw [List.reverse_cons, List.map_append, List.map_singleton,
      List.append_assoc, List.singleton_append]
    exact take_append_cons_take _ _ _ h.2.1

/-! ## Order lemmas for the `(event_ts_ms, id)` key -/

lemma keyLE_trans : ∀ a b c : LogRow,
    keyLE a b = true → keyLE b c = true → keyLE a c = true := by
  intro a b c
  simp only [keyLE, Bool.or_eq_true, Bool.and_eq_true, decide_eq_true_eq]
  omega

lemma keyLE_total : ∀ a b : LogRow, (keyLE a b || keyLE b a) = true := by
  intro a b
  simp only [keyLE, Bool.or_eq_true, Bool.and_eq_true, decide_eq_true_eq]
  omega

lemma keyLT_asymm : ∀ a b : LogRow, keyLT a b → keyLT b a → False := by
  intro a b
  unfold keyLT
  omega

lemma eq_of_perm_of_pairwise_strict {α : Type} {lt : α → α → Prop}
    (asym : ∀ a b, lt a b → lt b a → False) {l₁ l₂ : List α}
    (hp : l₁.Perm l₂) (h₁ : l₁.Pairwise lt) (h₂ : l₂.Pairwise lt) :
    l₁ = l₂ :=
  @List.eq_of_perm_of_sorted _ lt ⟨fun a b x y => (asym a b x y).elim⟩ _ _
    hp h₁ h₂

lemma pairwise_keyLT_of_sorted {l : List LogRow}
    (hs : l.Pairwise fun a b => keyLE a b = true) (hids : idsNodup l) :
    l.Pairwise keyLT := by
  refine (hs.and hids).imp ?_
  intro a b hab
  obtain ⟨h1, h2⟩ := hab
  simp only [keyLE, Bool.or_eq_true, Bool.and_eq_true, decide_eq_true_eq]
    at h1
  unfold keyLT
  omega

lemma idsNodup_perm {l₁ l₂ : List LogRow} (hp : l₁.Perm l₂)
    (h : idsNodup l₁) : idsNodup l₂ :=
  (hp.pairwise_iff fun hab => Ne.symm hab).mp h

lemma pairwise_keyLT_mergeSort {l : List LogRow} (hids : idsNodup l) :
    (l.mergeSort keyLE).Pairwise keyLT :=
  pairwise_keyLT_of_sorted (List.sorted_mergeSort keyLE_trans keyLE_total l)
    (idsNodup_perm (l.mergeSort_perm keyLE).symm hids)

/-- Sorting commutes with filtering when the row keys are distinct. -/
lemma mergeSort_filter_comm (q : LogRow → Bool) {l : List LogRow}
    (hids : idsNodup l) :
    (l.filter q).mergeSort keyLE = (l.mergeSort keyLE).filter q := by
  apply eq_of_perm_of_pairwise_strict keyLT_asymm
  · exact ((l.filter q).mergeSort_perm keyLE).trans
      ((l.mergeSort_perm keyLE).filter q).symm
  · exact pairwise_keyLT_mergeSort (List.Pairwise.sublist (l.filter_sublist) hids)
  · exact List.Pairwise.sublist (List.filter_sublist _)
      (pairwise_keyLT_mergeSort hids)

lemma cursorGate_zero (cID : Int) (r : LogRow) : cursorGate 0 cID r = true := by
  simp [cursorGate]

lemma cursorGate_iff {d : LogRow} (hts : d.eventTsMs ≠ 0) (r : LogRow) :
    cursorGate d.eventTsMs d.id r = true ↔ keyLT d r := by
  simp only [cursorGate, keyLT, Bool.or_eq_true, Bool.and_eq_true,
    decide_eq_true_eq, beq_iff_eq]
  omega

/-- On a strictly key-sorted list, filtering by "strictly after the
`(ts, id)` of `d`" recovers exactly the part after `d`. -/
lemma gate_split {s : List LogRow} (hs : s.Pairwise keyLT)
    (u v : List LogRow) (d : LogRow) (hsplit : s = u ++ d :: v)
    (hts : d.eventTsMs ≠ 0) :
    s.filter (cursorGate d.eventTsMs d.id) = v := by
  subst hsplit
  rw [List.pairwise_append] at hs
  obtain ⟨hu, hdv, hcross⟩ := hs
  rw [List.pairwise_cons] at hdv
  rw [List.filter_append, List.filter_cons]
  have h1 : u.filter (cursorGate d.eventTsMs d.id) = [] := by
    rw [List.filter_eq_nil_iff]
    intro a ha hgate
    exact keyLT_asymm a d (hcross a ha d (by simp))
      ((cursorGate_iff hts a).mp hgate)
  have h2 : cursorGate d.eventTsMs d.id d = false := by
    rw [Bool.eq_false_iff]
    intro hgate
    exact keyLT_asymm d d ((cursorGate_iff hts d).mp hgate)
      ((cursorGate_iff hts d).mp hgate)
  have h3 : v.filter (cursorGate d.eventTsMs d.id) = v :=
    List.filter_eq_self.mpr fun a ha =>
      (cursorGate_iff hts a).mpr (hdv.1 a ha)
  rw [h1, h2, h3]
  simp

/-- A no-filter `QueryLogsMulti` call is the cursor-filtered suffix of the
one sorted pass over the windowed rows. -/
lemma queryMulti_nofilter (rows : List LogRow)
    (startMs endMs cTS cID limit : Int) (hids : idsNodup rows) :
    QueryLogsMulti rows startMs endMs [] [] [] [] [] cTS cID limit
      = sqlLimit limit
          (((rows.filter (windowB startMs endMs)).mergeSort keyLE).filter
            (cursorGate cTS cID)) := by
  unfold QueryLogsMulti
  congr 1
  have h1 : rows.filter (matchesMulti startMs endMs [] [] [] [] [] cTS cID)
      = (rows.filter (windowB startMs endMs)).filter (cursorGate cTS cID) := by
    rw [List.filter_filter]
    apply List.filter_congr
    intro r _
    simp only [matchesMulti, List.isEmpty_nil, Bool.true_or, Bool.and_true,
      Bool.true_and]
    exact Bool.and_comm _ _
  rw [h1]
  exact mergeSort_filter_comm _ (List.Pairwise.sublist (rows.filter_sublist) hids)

/-! ## The pagination induction -/

/-- Driving the keyset-pagination protocol from any cursor whose page is
the suffix `rest` of the sorted store returns exactly `rest`. -/
lemma collectPages_eq (rows : List LogRow) (startMs endMs limit : Int)
    (hids : idsNodup rows) (hlim : 1 ≤ limit)
    (hts : ∀ r ∈ rows, r.eventTsMs ≠ 0)
    (hwin : ∀ r ∈ rows, windowB startMs endMs r = true) :
    ∀ fuel (cTS cID : Int) (done rest : List LogRow),
      rows.mergeSort keyLE = done ++ rest →
      (rows.mergeSort keyLE).filter (cursorGate cTS cID) = rest →
      rest.length < fuel →
      collectPages rows startMs endMs limit cTS cID fuel = rest := by
  have hwfilter : rows.filter (windowB startMs endMs) = rows :=
    List.filter_eq_self.mpr hwin
  have hsorted : (rows.mergeSort keyLE).Pairwise keyLT :=
    pairwise_keyLT_mergeSort hids
  have hperm : (rows.mergeSort keyLE).Perm rows := rows.mergeSort_perm keyLE
  intro fuel
  induction fuel with
  | zero => intro cTS cID done rest hsplit hfilter hlen; omega
  | succ fuel ih =>
    intro cTS cID done rest hsplit hfilter hlen
    have hpage : QueryLogsMulti rows startMs endMs [] [] [] [] [] cTS cID
        limit = rest.take limit.toNat := by
      rw [queryMulti_nofilter rows startMs endMs cTS cID limit hids,
        hwfilter, hfilter]
      unfold sqlLimit
      rw [if_neg (by omega)]
    simp only [collectPages, hpage]
    rcases rest with _ | ⟨r0, rest'⟩
    · simp
    · set rest := r0 :: rest' with hrest
      have hL1 : 1 ≤ limit.toNat := by omega
      have htne : rest.take limit.toNat ≠ [] := by
        apply List.ne_nil_of_length_pos
        rw [List.length_take]
        simp [hrest]
        omega
      have hlast : (rest.take limit.toNat).getLast? =
          some ((rest.take limit.toNat).getLast htne) :=
        List.getLast?_eq_getLast _ htne
      rw [hlast]
      set d := (rest.take limit.toNat).getLast htne with hd
      split
      · rename_i heq
        exact absurd heq (by simp)
      rename_i last heq
      obtain rfl : last = d := by
        injection heq with h
        exact h.symm
      by_cases htake : limit.toNat ≤ rest.length
      · -- a full page: continue with the cursor of its last row
        have hplen : ((rest.take limit.toNat).length : Int) = limit := by
          rw [List.length_take]
          omega
        rw [if_pos hplen]
        have hdecomp : rest.take limit.toNat
            = (rest.take limit.toNat).dropLast ++ [d] :=
          (List.dropLast_append_getLast htne).symm
        have hssplit : rows.mergeSort keyLE
            = (done ++ (rest.take limit.toNat).dropLast)
              ++ d :: rest.drop limit.toNat := by
          rw [hsplit]
          conv_lhs => rw [← List.take_append_drop limit.toNat rest]
          rw [hdecomp]
          simp
        have hdmem : d ∈ rows :=
          hperm.mem_iff.mp (by rw [hssplit]; simp)
        have hfilter' : (rows.mergeSort keyLE).filter
            (cursorGate d.eventTsMs d.id) = rest.drop limit.toNat :=
          gate_split hsorted _ _ d hssplit (hts d hdmem)
        rw [ih d.eventTsMs d.id
          (done ++ (rest.take limit.toNat).dropLast ++ [d])
          (rest.drop limit.toNat)
          (by rw [hssplit]; simp) hfilter'
          (by rw [List.length_drop]; omega)]
        exact List.take_append_drop _ _
      · -- a short page: end of range
        have hplen : ¬ (((rest.take limit.toNat).length : Int) = limit) := by
          rw [List.length_take]
          omega
        rw [if_neg hplen]
        exact List.take_of_length_le (by omega)

/-- C1 (amended: all row timestamps nonzero): for a store whose rows
have distinct ids and nonzero timestamps inside the query window,
`QueryLogsMulti` with no filters and with cursor equal to the
`(event_ts_ms, id)` of the last row of the previous page returns exactly
the remaining rows of the `(event_ts_ms, id)`-sorted store (up to the
limit), and driving the pagination protocol from the start concatenates
the pages into exactly the full sorted row set — a permutation of the
store with strictly increasing keys, hence with no duplicates and no
omissions. -/
theorem keyset_pagination_complete (rows : List LogRow)
    (startMs endMs limit : Int) (fuel : Nat)
    (hids : rows.Pairwise fun a b => a.id ≠ b.id) (hlim : 1 ≤ limit)
    (hts : ∀ r ∈ rows, r.eventTsMs ≠ 0)
    (hwin : ∀ r ∈ rows, startMs ≤ r.eventTsMs ∧ r.eventTsMs < endMs)
    (hfuel : rows.length < fuel) :
    (∀ done d rest, rows.mergeSort keyLE = done ++ d :: rest →
        QueryLogsMulti rows startMs endMs [] [] [] [] [] d.eventTsMs d.id
          limit = sqlLimit limit rest)
    ∧ collectPages rows startMs endMs limit 0 0 fuel = rows.mergeSort keyLE
    ∧ (rows.mergeSort keyLE).Perm rows
    ∧ (rows.mergeSort keyLE).Pairwise keyLT := by
  have hwinB : ∀ r ∈ rows, windowB startMs endMs r = true := by
    intro r hr
    simp only [windowB, Bool.and_eq_true, decide_eq_true_eq]
    exact hwin r hr
  have hids' : idsNodup rows := hids
  refine ⟨?_, ?_, rows.mergeSort_perm keyLE, pairwise_keyLT_mergeSort hids'⟩
  · intro done d rest hsplit
    have hdmem : d ∈ rows := (rows.mergeSort_perm keyLE).mem_iff.mp
      (by rw [hsplit]; simp)
    rw [queryMulti_nofilter rows startMs endMs _ _ limit hids',
      List.filter_eq_self.mpr hwinB,
      gate_split (pairwise_keyLT_mergeSort hids') done rest d hsplit
        (hts d hdmem)]
  · exact collectPages_eq rows startMs endMs limit hids' hlim hts hwinB fuel
      0 0 [] (rows.mergeSort keyLE) (by simp)
      (List.filter_eq_self.mpr fun a _ => cursorGate_zero 0 a)
      (by rw [(rows.mergeSort_perm keyLE).length_eq]; exact hfuel)

/-- Witness for C1's amended theorem at a concrete two-row store. -/
theorem keyset_pagination_complete_witness :
    collectPages [crowA, crowB] 1 4 1 0 0 3 = [crowA, crowB].mergeSort keyLE :=
  (keyset_pagination_complete [crowA, crowB] 1 4 1 3 (by decide) (by decide)
    (by decide) (by decide) (by decide)).2.1

/-- Counterexample to C1 as stated: in a store of two rows with
`event_ts_ms = 0` (the stored timestamp of an envelope with no
timestamp), sorted timestamps and distinct ids, the page after the page
`[cexRow1]` — queried with cursor `(cexRow1.eventTsMs, cexRow1.id) =
(0, 1)` — is again `[cexRow1]`, not the remaining row set `[cexRow2]`:
the zero-timestamp cursor is dropped entirely, so pagination repeats the
first page forever. -/
theorem keyset_pagination_cex :
    QueryLogsMulti [cexRow1, cexRow2] 0 1 [] [] [] [] [] 0 0 1 = [cexRow1]
    ∧ QueryLogsMulti [cexRow1, cexRow2] 0 1 [] [] [] [] []
        cexRow1.eventTsMs cexRow1.id 1 = [cexRow1]
    ∧ cexRow1 ≠ cexRow2 := by
  have hsorted2 : List.Pairwise (fun a b => keyLE a b = true)
      [cexRow1, cexRow2] := by decide
  refine ⟨?_, ?_, by decide⟩
  · unfold QueryLogsMulti
    rw [show List.filter (matchesMulti 0 1 [] [] [] [] [] 0 0)
        [cexRow1, cexRow2] = [cexRow1, cexRow2] from by decide,
      List.mergeSort_of_sorted hsorted2]
    decide
  · unfold QueryLogsMulti
    rw [show List.filter (matchesMulti 0 1 [] [] [] [] []
          cexRow1.eventTsMs cexRow1.id)
        [cexRow1, cexRow2] = [cexRow1, cexRow2] from by decide,
      List.mergeSort_of_sorted hsorted2]
    decide

/-- C9: a cursor with `cursorTS = 0` is dropped from the WHERE clause of
both `QueryLogs` and `QueryLogsMulti` regardless of `cursorID`, so the
query behaves exactly as if no cursor were supplied (the no-cursor call
is the `(0, 0)` default the HTTP handler passes). -/
theorem cursorTS_zero_means_no_cursor (rows : List LogRow)
    (startMs endMs : Int) (topics services hosts : List String)
    (levels : List Int) (types : List String) (cursorID limit : Int)
    (topic service : String) :
    QueryLogsMulti rows startMs endMs topics services hosts levels types
        0 cursorID limit
      = QueryLogsMulti rows startMs endMs topics services hosts levels types
        0 0 limit
    ∧ QueryLogs rows startMs endMs topic service 0 cursorID limit
      = QueryLogs rows startMs endMs topic service 0 0 limit := by
  constructor
  · unfold QueryLogsMulti
    have h : List.filter (matchesMulti startMs endMs topics services hosts
          levels types 0 cursorID) rows
        = List.filter (matchesMulti startMs endMs topics services hosts
          levels types 0 0) rows := by
      apply List.filter_congr
      intro r _
      simp only [matchesMulti, cursorGate_zero]
    rw [h]
  · unfold QueryLogs
    have h : List.filter (matchesSingle startMs endMs topic service
          0 cursorID) rows
        = List.filter (matchesSingle startMs endMs topic service 0 0)
          rows := by
      apply List.filter_congr
      intro r _
      simp only [matchesSingle, cursorGate_zero]
    rw [h]

/-- The WHERE predicate of `QueryLogsMulti`, read as a proposition. -/
lemma matchesMulti_iff (startMs endMs : Int)
    (topics services hosts : List String) (levels : List Int)
    (types : List String) (cTS cID : Int) (r : LogRow) :
    matchesMulti startMs endMs topics services hosts levels types cTS cID r
        = true
      ↔ ((startMs ≤ r.eventTsMs ∧ r.eventTsMs < endMs)
        ∧ (topics = [] ∨ r.topic ∈ topics)
        ∧ (services = [] ∨ ∃ s, r.service = some s ∧ s ∈ services)
        ∧ (hosts = [] ∨ ∃ s, r.host = some s ∧ s ∈ hosts)
        ∧ (types = [] ∨ ∃ s, r.type_ = some s ∧ s ∈ types)
        ∧ (levels = [] ∨ r.level ∈ levels)
        ∧ (cTS = 0 ∨ cTS < r.eventTsMs
            ∨ (r.eventTsMs = cTS ∧ cID < r.id))) := by
  unfold matchesMulti windowB cursorGate inStrings
  cases hs : r.service <;> cases hh : r.host <;> cases ht : r.type_ <;>
    simp [List.isEmpty_iff, List.contains, List.elem_iff, and_assoc]

/-- C7: multi-value filtering: every returned row lies in the half-open
time window and, for each dimension with a non-empty allowed-value set
(topic, service, host, type, level), has a non-NULL column value that is
a member of that set; an empty set never excludes a row (given room in
the limit and a passing cursor, every row satisfying the window and the
non-empty membership tests is returned); and the result is in ascending
`(event_ts_ms, id)` order. -/
theorem queryLogsMulti_filter_spec (rows : List LogRow)
    (startMs endMs : Int) (topics services hosts : List String)
    (levels : List Int) (types : List String) (cTS cID limit : Int) :
    (∀ r ∈ QueryLogsMulti rows startMs endMs topics services hosts levels
        types cTS cID limit,
      (startMs ≤ r.eventTsMs ∧ r.eventTsMs < endMs)
      ∧ (topics ≠ [] → r.topic ∈ topics)
      ∧ (services ≠ [] → ∃ s, r.service = some s ∧ s ∈ services)
      ∧ (hosts ≠ [] → ∃ s, r.host = some s ∧ s ∈ hosts)
      ∧ (types ≠ [] → ∃ s, r.type_ = some s ∧ s ∈ types)
      ∧ (levels ≠ [] → r.level ∈ levels))
    ∧ (QueryLogsMulti rows startMs endMs topics services hosts levels types
        cTS cID limit).Pairwise (fun a b => keyLE a b = true)
    ∧ ((rows.length : Int) ≤ limit →
        ∀ r ∈ rows,
          (startMs ≤ r.eventTsMs ∧ r.eventTsMs < endMs) →
          (topics = [] ∨ r.topic ∈ topics) →
          (services = [] ∨ ∃ s, r.service = some s ∧ s ∈ services) →
          (hosts = [] ∨ ∃ s, r.host = some s ∧ s ∈ hosts) →
          (types = [] ∨ ∃ s, r.type_ = some s ∧ s ∈ types) →
          (levels = [] ∨ r.level ∈ levels) →
          (cTS = 0 ∨ cTS < r.eventTsMs ∨ (r.eventTsMs = cTS ∧ cID < r.id)) →
          r ∈ QueryLogsMulti rows startMs endMs topics services hosts levels
            types cTS cID limit) := by
  have hsub : ∀ r ∈ QueryLogsMulti rows startMs endMs topics services hosts
      levels types cTS cID limit,
      matchesMulti startMs endMs topics services hosts levels types cTS cID r
        = true := by
    intro r hr
    have h1 : r ∈ (rows.filter (matchesMulti startMs endMs topics services
        hosts levels types cTS cID)).mergeSort keyLE := by
      unfold QueryLogsMulti sqlLimit at hr
      split at hr
      · exact hr
      · exact List.mem_of_mem_take hr
    exact List.of_mem_filter
      ((List.mergeSort_perm _ keyLE).mem_iff.mp h1)
  refine ⟨?_, ?_, ?_⟩
  · intro r hr
    have h := (matchesMulti_iff startMs endMs topics services hosts levels
      types cTS cID r).mp (hsub r hr)
    exact ⟨h.1, fun hne => (h.2.1).resolve_left hne,
      fun hne => (h.2.2.1).resolve_left hne,
      fun hne => (h.2.2.2.1).resolve_left hne,
      fun hne => (h.2.2.2.2.1).resolve_left hne,
      fun hne => (h.2.2.2.2.2.1).resolve_left hne⟩
  · have hsorted := @List.sorted_mergeSort _ keyLE keyLE_trans keyLE_total
      (rows.filter (matchesMulti startMs endMs topics services hosts levels
        types cTS cID))
    unfold QueryLogsMulti sqlLimit
    split
    · exact hsorted
    · exact List.Pairwise.sublist (List.take_sublist _ _) hsorted
  · intro hlim r hr h1 h2 h3 h4 h5 h6 h7
    have hm : matchesMulti startMs endMs topics services hosts levels types
        cTS cID r = true :=
      (matchesMulti_iff startMs endMs topics services hosts levels types cTS
        cID r).mpr ⟨h1, h2, h3, h4, h5, h6, h7⟩
    have hmem : r ∈ (rows.filter (matchesMulti startMs endMs topics services
        hosts levels types cTS cID)).mergeSort keyLE :=
      (List.mergeSort_perm _ keyLE).mem_iff.mpr (List.mem_filter.mpr ⟨hr, hm⟩)
    unfold QueryLogsMulti sqlLimit
    split
    · exact hmem
    · rw [List.take_of_length_le]
      · exact hmem
      · have hle : (rows.filter (matchesMulti startMs endMs topics services
            hosts levels types cTS cID)).length ≤ rows.length :=
          List.length_filter_le _ _
        have hlen : ((rows.filter (matchesMulti startMs endMs topics services
            hosts levels types cTS cID)).mergeSort keyLE).length
            = (rows.filter (matchesMulti startMs endMs topics services hosts
              levels types cTS cID)).length :=
          (List.mergeSort_perm _ keyLE).length_eq
        omega

/-- Witness for C7 at a three-row store with services A, B, C: the
service-A row is returned by `services = {A, C}`. -/
theorem queryLogsMulti_filter_spec_witness :
    crowA ∈ QueryLogsMulti [crowA, crowB, crowC] 0 10 [] ["A", "C"] [] [] []
      0 0 5 :=
  (queryLogsMulti_filter_spec [crowA, crowB, crowC] 0 10 [] ["A", "C"] [] []
      [] 0 0 5).2.2
    (by decide) crowA (by decide) (by decide) (Or.inl rfl)
    (Or.inr ⟨"A", rfl, by decide⟩) (Or.inl rfl) (Or.inl rfl) (Or.inl rfl)
    (Or.inl rfl)

lemma fieldNumLE_trans : ∀ a b c : ProtoField,
    fieldNumLE a b = true → fieldNumLE b c = true → fieldNumLE a c = true := by
  intro a b c
  simp only [fieldNumLE, decide_eq_true_eq]
  omega

lemma fieldNumLE_total : ∀ a b : ProtoField,
    (fieldNumLE a b || fieldNumLE b a) = true := by
  intro a b
  simp only [fieldNumLE, Bool.or_eq_true, decide_eq_true_eq]
  omega

/-- Two field lists with the same distinct-numbered fields sort to the
same canonical order. -/
lemma sortedFields_perm_eq {m m' : List ProtoField} (hperm : m.Perm m')
    (hnum : (m.map ProtoField.number).Nodup) :
    sortedFields m = sortedFields m' := by
  have hpw : m.Pairwise fun a b => a.number ≠ b.number :=
    (List.pairwise_map).mp hnum
  have hpw' : ∀ {l l' : List ProtoField}, l.Perm l' →
      l.Pairwise (fun a b => a.number ≠ b.number) →
      l'.Pairwise fun a b => a.number ≠ b.number :=
    fun hp h => (hp.pairwise_iff fun hab => Ne.symm hab).mp h
  have hstrict : ∀ l : List ProtoField,
      l.Pairwise (fun a b => a.number ≠ b.number) →
      (l.mergeSort fieldNumLE).Pairwise fun a b => a.number < b.number := by
    intro l hl
    have hs := List.sorted_mergeSort fieldNumLE_trans fieldNumLE_total l
    have hne := hpw' (l.mergeSort_perm fieldNumLE).symm hl
    refine (hs.and hne).imp ?_
    intro a b hab
    obtain ⟨h1, h2⟩ := hab
    simp only [fieldNumLE, decide_eq_true_eq] at h1
    omega
  apply @eq_of_perm_of_pairwise_strict ProtoField
    (fun a b => a.number < b.number)
    (fun a b h1 h2 => by omega)
  · exact (m.mergeSort_perm fieldNumLE).trans
      (hperm.trans (m'.mergeSort_perm fieldNumLE).symm)
  · exact hstrict m hpw
  · exact hstrict m' (hpw' hperm hpw)

/-- C5: decoding is deterministic and canonical. A successful
`FormatJSON` is exactly the canonical serialization of the decoded
populated-field set: any two materializations of the same field set (in
any order) render to byte-identical output, the emitted members are
exactly the populated fields (no more, no fewer) keyed by their declared
proto names, and they are emitted in the canonical ascending
field-number order. -/
theorem formatJSON_deterministic (r : Registry) (t : String)
    (p : List Nat) (d : Descriptor) (m m' : List ProtoField)
    (ht : t ≠ "") (hfind : r.find t = some d) (hmsg : d.isMessage = true)
    (hun : d.unmarshal p = some m)
    (hperm : m.Perm m') (hnum : (m.map ProtoField.number).Nodup) :
    FormatJSON (some r) t p = .ok (marshalJSONFields m)
    ∧ marshalJSONFields m = marshalJSONFields m'
    ∧ (sortedFields m).Perm m
    ∧ (sortedFields m).Pairwise fun a b => a.number ≤ b.number := by
  refine ⟨?_, ?_, m.mergeSort_perm fieldNumLE, ?_⟩
  · unfold FormatJSON
    simp only [if_neg ht, hfind, hmsg, hun, Bool.true_eq_false, if_false]
  · unfold marshalJSONFields
    rw [sortedFields_perm_eq hperm hnum]
  · refine (List.sorted_mergeSort fieldNumLE_trans fieldNumLE_total m).imp ?_
    intro a b hab
    simpa only [fieldNumLE, decide_eq_true_eq] using hab

/-- Witness for C5: the two materialization orders of the fixture field
set render identically. -/
theorem formatJSON_deterministic_witness :
    marshalJSONFields [pfA, pfB] = marshalJSONFields [pfB, pfA] :=
  (formatJSON_deterministic reg5 "demo.M" [] desc5 [pfA, pfB] [pfB, pfA]
    (by decide) rfl rfl rfl (List.Perm.swap pfB pfA []) (by decide)).2.1

/-- C4: whenever payload enrichment fails — unresolved type name,
non-message descriptor, or malformed payload bytes — `FormatJSON`
returns an error and no value, yet `toWSLog` still produces the outbound
message, with the decoded-payload field absent, and a matching viewer
with mailbox room still receives exactly that message: the decode
failure never fails or suppresses the delivery. -/
theorem decode_failure_degrades (codecs : ExternCodecs) (r : Registry)
    (env : LogEnvelope)
    (hfail : r.find env.type_ = none
      ∨ (∃ d, r.find env.type_ = some d ∧ d.isMessage = false)
      ∨ (∃ d, r.find env.type_ = some d ∧ d.isMessage = true
          ∧ d.unmarshal env.payload = none)) :
    (∃ msg, FormatJSON (some r) env.type_ env.payload = .error msg)
    ∧ toWSLog codecs (some r) env
        = { dto := envToDTO codecs env, payloadJSON := none }
    ∧ (∀ c : WsClient, (c.topic = "" ∨ c.topic = env.topic) →
        c.send.length < c.cap →
        deliverOne codecs (some r) env c
          = { c with send := c.send
              ++ [{ dto := envToDTO codecs env, payloadJSON := none }] }) := by
  have herr : ∃ msg, FormatJSON (some r) env.type_ env.payload
      = .error msg := by
    by_cases ht : env.type_ = ""
    · exact ⟨"empty type name", by unfold FormatJSON; simp [ht]⟩
    · rcases hfail with hf | ⟨d, hf, hm⟩ | ⟨d, hf, hm, hu⟩
      · exact ⟨"find descriptor " ++ env.type_,
          by unfold FormatJSON; simp [ht, hf]⟩
      · exact ⟨"descriptor " ++ env.type_ ++ " is not a message",
          by unfold FormatJSON; simp [ht, hf, hm]⟩
      · exact ⟨"unmarshal payload as " ++ env.type_,
          by unfold FormatJSON; simp [ht, hf, hm, hu]⟩
  have hws : toWSLog codecs (some r) env
      = { dto := envToDTO codecs env, payloadJSON := none } := by
    obtain ⟨msg, hmsg⟩ := herr
    unfold toWSLog
    by_cases hg : (some r : Option Registry).isSome
        ∧ 0 < env.payload.length ∧ env.type_ ≠ ""
    · simp only [if_pos hg, hmsg]
    · simp only [if_neg hg]
  refine ⟨herr, hws, ?_⟩
  intro c hc hroom
  have hno : ¬(c.topic ≠ "" ∧ c.topic ≠ env.topic) := by tauto
  unfold deliverOne
  rw [if_neg hno, hws, if_pos hroom]

/-- Witness for C4: with a registry resolving no names, the envelope's
enriched message is delivered with no decoded payload. -/
theorem decode_failure_degrades_witness :
    toWSLog codecs0 (some reg0) (sampleEnv "demo" "x")
      = { dto := envToDTO codecs0 (sampleEnv "demo" "x"),
          payloadJSON := none } :=
  (decode_failure_degrades codecs0 reg0 (sampleEnv "demo" "x")
    (Or.inl rfl)).2.1

/-- C3: one fan-out pass maps every registered viewer through the same
per-viewer total function: a viewer whose filter is empty or equals the
envelope's topic and whose mailbox has room gets the message appended; a
matching viewer whose mailbox is full is left exactly as it was (the
message is dropped for it alone); a non-matching viewer is untouched;
and each viewer's outcome is independent of every other viewer's state —
the pass never waits on any viewer. -/
theorem hub_fanout_isolation (codecs : ExternCodecs) (h : Hub)
    (env : LogEnvelope) (pre post : List WsClient) (c : WsClient)
    (hsplit : h.clients = pre ++ c :: post) :
    (Hub.deliver codecs h env).clients
      = pre.map (deliverOne codecs h.registry env)
        ++ deliverOne codecs h.registry env c
          :: post.map (deliverOne codecs h.registry env)
    ∧ ((c.topic = "" ∨ c.topic = env.topic) →
        (c.send.length < c.cap →
          deliverOne codecs h.registry env c
            = { c with send := c.send ++ [toWSLog codecs h.registry env] })
        ∧ (c.cap ≤ c.send.length →
            deliverOne codecs h.registry env c = c))
    ∧ (c.topic ≠ "" ∧ c.topic ≠ env.topic →
        deliverOne codecs h.registry env c = c) := by
  refine ⟨?_, ?_, ?_⟩
  · unfold Hub.deliver
    rw [hsplit]
    simp
  · intro hc
    have hno : ¬(c.topic ≠ "" ∧ c.topic ≠ env.topic) := by tauto
    constructor
    · intro hroom
      unfold deliverOne
      rw [if_neg hno, if_pos hroom]
    · intro hfull
      unfold deliverOne
      rw [if_neg hno, if_neg (by omega)]
  · intro hc
    unfold deliverOne
    rw [if_pos hc]

/-- Witness for C3: the full viewer of the fixture hub receives nothing
from a delivery while its open sibling is handled independently. -/
theorem hub_fanout_isolation_witness :
    deliverOne codecs0 hub0.registry (sampleEnv "demo" "x") clFull
      = clFull :=
  ((hub_fanout_isolation codecs0 hub0 (sampleEnv "demo" "x") [clOpen] []
      clFull rfl).2.1 (Or.inl rfl)).2 (by decide)

/-- C6: for every frame that deserializes into an envelope, whatever the
persistence insert's outcome, the envelope is still added to the topic
cache and still submitted to the hub's deliver mailbox — the cache and
broadcast effects coincide exactly with those of a successful insert,
only the set of stored rows differs, and processing is total (never
fatal). -/
theorem persistence_failure_isolated (codecs : ExternCodecs)
    (st : CollectorState) (data : List Nat) (env : LogEnvelope)
    (hde : codecs.unmarshalEnv data = some env) (insertErr : Option String) :
    (processFrame codecs st data insertErr).buffers = st.buffers.Add env
    ∧ (processFrame codecs st data insertErr).broadcast
        = st.broadcast ++ [env]
    ∧ (processFrame codecs st data insertErr).inserted
        = st.inserted ++ (match insertErr with
            | none => [env]
            | some _ => [])
    ∧ (processFrame codecs st data insertErr).buffers
        = (processFrame codecs st data none).buffers
    ∧ (processFrame codecs st data insertErr).broadcast
        = (processFrame codecs st data none).broadcast := by
  unfold processFrame
  rw [hde]
  cases insertErr <;> simp

/-- Witness for C6: a failed insert still reaches cache and broadcast. -/
theorem persistence_failure_isolated_witness :
    (processFrame codecs1
        { inserted := [], buffers := NewTopicBuffers 2, broadcast := [] }
        [0] (some "disk full")).broadcast
      = ([] : List LogEnvelope) ++ [sampleEnv "demo" "w"] :=
  (persistence_failure_isolated codecs1
    { inserted := [], buffers := NewTopicBuffers 2, broadcast := [] }
    [0] (sampleEnv "demo" "w") rfl (some "disk full")).2.1

/-! ## Topic cache / writer map lemmas -/

lemma lookup_updateTopic_self (l : List (String × RingBuffer)) (t : String)
    (rb : RingBuffer) : (updateTopic l t rb).lookup t = some rb := by
  induction l with
  | nil =>
    simp only [updateTopic, List.lookup]
    rw [show (t == t) = true from beq_self_eq_true t]
  | cons p l ih =>
    obtain ⟨k, v⟩ := p
    unfold updateTopic
    by_cases h : k = t
    · subst h
      simp only [if_pos rfl, List.lookup]
      rw [show (k == k) = true from beq_self_eq_true k]
    · simp only [if_neg h, List.lookup]
      rw [show (t == k) = false from
        beq_eq_false_iff_ne.mpr fun hh => h hh.symm]
      exact ih

lemma lookup_updateTopic_ne {s t : String} (h : s ≠ t)
    (l : List (String × RingBuffer)) (rb : RingBuffer) :
    (updateTopic l t rb).lookup s = l.lookup s := by
  induction l with
  | nil =>
    simp only [updateTopic, List.lookup]
    rw [show (s == t) = false from beq_eq_false_iff_ne.mpr h]
  | cons p l ih =>
    obtain ⟨k, v⟩ := p
    unfold updateTopic
    by_cases hk : k = t
    · subst hk
      simp only [if_pos rfl, List.lookup]
      rw [show (s == k) = false from beq_eq_false_iff_ne.mpr h]
    · simp only [if_neg hk, List.lookup]
      by_cases hs : s = k
      · rw [show (s == k) = true from beq_iff_eq.mpr hs]
      · rw [show (s == k) = false from beq_eq_false_iff_ne.mpr hs]
        exact ih

lemma mem_keys_updateTopic (l : List (String × RingBuffer)) (t s : String)
    (rb : RingBuffer) :
    s ∈ (updateTopic l t rb).map Prod.fst ↔ s = t ∨ s ∈ l.map Prod.fst := by
  induction l with
  | nil => simp [updateTopic]
  | cons p l ih =>
    obtain ⟨k, v⟩ := p
    unfold updateTopic
    by_cases h : k = t
    · subst h
      simp
    · simp only [if_neg h, List.map_cons, List.mem_cons, ih]
      tauto

lemma lookup_none_iff (l : List (String × RingBuffer)) (t : String) :
    l.lookup t = none ↔ t ∉ l.map Prod.fst := by
  induction l with
  | nil => simp [List.lookup]
  | cons p l ih =>
    obtain ⟨k, v⟩ := p
    simp only [List.lookup, List.map_cons, List.mem_cons]
    by_cases h : t = k
    · rw [show (t == k) = true from beq_iff_eq.mpr h]
      simp [h]
    · rw [show (t == k) = false from beq_eq_false_iff_ne.mpr h]
      show List.lookup t l = none ↔ ¬(t = k ∨ t ∈ List.map Prod.fst l)
      rw [ih]
      tauto

lemma mem_Topics (tb : TopicBuffers) (s : String) :
    s ∈ tb.Topics ↔ s ∈ tb.topics.map Prod.fst := by
  unfold TopicBuffers.Topics
  exact (List.mergeSort_perm _ _).mem_iff

lemma head?_take {α : Type} {l : List α} {m : Nat} (hm : 1 ≤ m) :
    (l.take m).head? = l.head? := by
  cases l with
  | nil => simp
  | cons a t =>
    obtain ⟨m', rfl⟩ : ∃ m', m = m' + 1 := ⟨m - 1, by omega⟩
    simp

lemma lookup_updateFile_self (l : List (String × List Nat)) (t : String)
    (frame : List Nat) :
    (updateFile l t frame).lookup t = some ((l.lookup t).getD [] ++ frame) := by
  induction l with
  | nil =>
    simp only [updateFile, List.lookup]
    rw [show (t == t) = true from beq_self_eq_true t]
    rfl
  | cons p l ih =>
    obtain ⟨k, v⟩ := p
    unfold updateFile
    by_cases h : k = t
    · subst h
      simp only [if_pos rfl, List.lookup]
      rw [show (k == k) = true from beq_self_eq_true k]
      rfl
    · simp only [if_neg h, List.lookup]
      rw [show (t == k) = false from
        beq_eq_false_iff_ne.mpr fun hh => h hh.symm]
      exact ih

/-- After adding an empty-topic envelope, the ring stored under
"untitled" holds it as its newest element; shared by the C8 and C10
developments. -/
lemma recent_untitled_head (tb : TopicBuffers) (env : LogEnvelope)
    (htopic : env.topic = "") (hwf : tb.wf) :
    ∀ k : Int, ((tb.Add env).Recent "untitled" k).head? = some (some env) := by
  intro k
  have hkey : normalizeTopic env.topic = "untitled" := by
    simp [normalizeTopic, htopic]
  have hinv : (match tb.topics.lookup "untitled" with
      | some rb => rb
      | none => NewRingBuffer tb.size).inv := by
    cases hl : tb.topics.lookup "untitled" with
    | none => exact inv_NewRingBuffer _
    | some rb0 => exact hwf _ _ hl
  set rb := (match tb.topics.lookup "untitled" with
    | some rb => rb
    | none => NewRingBuffer tb.size) with hrb
  have hlook : (tb.Add env).topics.lookup "untitled" = some (rb.Add env) := by
    unfold TopicBuffers.Add
    simp only [hkey]
    exact lookup_updateTopic_self _ _ _
  unfold TopicBuffers.Recent
  rw [hlook]
  show ((rb.Add env).Recent k).head? = some (some env)
  have hc1 : 1 ≤ (rb.Add env).count := by
    have h1 := toList_length (rb.Add env)
    rw [toList_Add hinv] at h1
    simp at h1
    omega
  rw [Recent_eq_take, toList_Add hinv]
  split
  · rw [head?_take (by omega)]
    simp
  · rename_i hcond
    push_neg at hcond
    rw [head?_take (by omega)]
    simp

/-- C8: an envelope whose topic is the empty string is partitioned under
the reserved sentinel "untitled" everywhere the topic is a partition
key: `TopicBuffers.Add` places it (newest) in the ring looked up under
"untitled", and `Writer.WriteEnvelope` appends its length-prefixed frame
to the file recorded for topic "untitled", whose on-disk name is
`baseDir/untitled.log`. -/
theorem empty_topic_normalized (codecs : ExternCodecs) (tb : TopicBuffers)
    (w : Writer) (env : LogEnvelope) (htopic : env.topic = "")
    (hwf : tb.wf) :
    (∀ k : Int, ((tb.Add env).Recent "untitled" k).head? = some (some env))
    ∧ (Writer.WriteEnvelope codecs w env).files.lookup "untitled"
        = some ((w.files.lookup "untitled").getD []
            ++ (u32be (codecs.marshalEnv env).length
              ++ codecs.marshalEnv env))
    ∧ w.logFileName "untitled" = w.baseDir ++ "/untitled.log" := by
  refine ⟨recent_untitled_head tb env htopic hwf, ?_, ?_⟩
  · unfold Writer.WriteEnvelope
    simp only [htopic, if_pos rfl]
    exact lookup_updateFile_self _ _ _
  · unfold Writer.logFileName
    rw [String.append_assoc, String.append_assoc]
    congr 1

/-- Witness for C8 on a fresh cache and writer. -/
theorem empty_topic_normalized_witness :
    (Writer.WriteEnvelope codecs0 (NewWriter "data")
        (sampleEnv "" "e")).files.lookup "untitled"
      = some (((NewWriter "data").files.lookup "untitled").getD []
          ++ (u32be (codecs0.marshalEnv (sampleEnv "" "e")).length
            ++ codecs0.marshalEnv (sampleEnv "" "e"))) :=
  (empty_topic_normalized codecs0 (NewTopicBuffers 2) (NewWriter "data")
    (sampleEnv "" "e") rfl
    (fun _ _ h => Option.noConfusion h)).2.1

/-- C10: normalization is asymmetric between write and read: after
adding an empty-topic envelope to a cache that has never stored the ""
key, `Recent("", k)` is empty for every `k` (the read key is not
normalized), `Recent("untitled", k)` yields that envelope as its newest
entry, and `Topics()` lists "untitled" but not the empty string. -/
theorem topic_normalization_asymmetric (tb : TopicBuffers)
    (env : LogEnvelope) (htopic : env.topic = "") (hwf : tb.wf)
    (hempty : tb.topics.lookup "" = none) :
    (∀ k : Int, (tb.Add env).Recent "" k = [])
    ∧ (∀ k : Int, ((tb.Add env).Recent "untitled" k).head?
        = some (some env))
    ∧ "untitled" ∈ (tb.Add env).Topics
    ∧ "" ∉ (tb.Add env).Topics := by
  have hkey : normalizeTopic env.topic = "untitled" := by
    simp [normalizeTopic, htopic]
  have htop : (tb.Add env).topics
      = updateTopic tb.topics "untitled"
          ((match tb.topics.lookup "untitled" with
            | some rb => rb
            | none => NewRingBuffer tb.size).Add env) := by
    unfold TopicBuffers.Add
    simp only [hkey]
  refine ⟨?_, recent_untitled_head tb env htopic hwf, ?_, ?_⟩
  · intro k
    unfold TopicBuffers.Recent
    rw [htop, lookup_updateTopic_ne (by decide) _ _, hempty]
  · rw [mem_Topics, htop, mem_keys_updateTopic]
    exact Or.inl rfl
  · rw [mem_Topics, htop, mem_keys_updateTopic]
    rintro (h | h)
    · exact absurd h (by decide)
    · exact absurd h ((lookup_none_iff _ _).mp hempty)

/-- Witness for C10 on a fresh cache. -/
theorem topic_normalization_asymmetric_witness :
    ((NewTopicBuffers 2).Add (sampleEnv "" "e")).Recent "" 5 = [] :=
  (topic_normalization_asymmetric (NewTopicBuffers 2) (sampleEnv "" "e")
    rfl (fun _ _ h => Option.noConfusion h) rfl).1 5

/-- C2: for a ring of capacity N ≥ 1, after M ≥ N additions, `Recent(k)`
for 1 ≤ k ≤ N returns exactly the last min(k, N) = k added envelopes,
newest first, and no `Recent` call whatsoever can return an envelope
other than (one of) the N most recently added. -/
theorem ring_recent_last_n (N : Nat) (hN : 1 ≤ N) (es : List LogEnvelope)
    (hM : N ≤ es.length) (k : Nat) (hk1 : 1 ≤ k) (hkN : k ≤ N) :
    (addAll (NewRingBuffer (N : Int)) es).Recent (k : Int)
        = (es.reverse.take k).map some
    ∧ ∀ (j : Int), ∀ o ∈ (addAll (NewRingBuffer (N : Int)) es).Recent j,
        ∃ x, o = some x ∧ x ∈ es.reverse.take N := by
  have hsize : (NewRingBuffer (N : Int)).size = N := by
    unfold NewRingBuffer
    rw [if_neg (by omega)]
    simp
  have htl : (addAll (NewRingBuffer (N : Int)) es).toList
      = (es.reverse.take N).map some := by
    rw [toList_addAll (inv_NewRingBuffer _) es, toList_NewRingBuffer,
      List.append_nil, hsize, ← List.map_take]
  have hcount : (addAll (NewRingBuffer (N : Int)) es).count = N := by
    have h1 := toList_length (addAll (NewRingBuffer (N : Int)) es)
    rw [htl] at h1
    simp at h1
    omega
  constructor
  · rw [Recent_eq_take, htl, hcount, if_neg (by omega)]
    rw [show ((k : Int)).toNat = k from by omega]
    rw [← List.map_take, List.take_take]
    congr 2
    omega
  · intro j o ho
    rw [Recent_eq_take, htl] at ho
    have ho' : o ∈ (es.reverse.take N).map some := List.mem_of_mem_take ho
    obtain ⟨x, hx, rfl⟩ := List.mem_map.mp ho'
    exact ⟨x, rfl, hx⟩

/-- Witness for C2 at capacity 2 with three additions. -/
theorem ring_recent_last_n_witness :
    (addAll (NewRingBuffer ((2 : Nat) : Int))
        [sampleEnv "demo" "one", sampleEnv "demo" "two",
          sampleEnv "demo" "three"]).Recent ((2 : Nat) : Int)
      = ([sampleEnv "demo" "one", sampleEnv "demo" "two",
          sampleEnv "demo" "three"].reverse.take 2).map some :=
  (ring_recent_last_n 2 (by decide)
    [sampleEnv "demo" "one", sampleEnv "demo" "two",
      sampleEnv "demo" "three"] (by decide) 2 (by decide) (by decide)).1

end Protolog
